import Mathlib

/-!
Shallow embedding of `cpp/log/cluster_state_controller-inl.h` from the
certificate-transparency repository: the `ClusterStateController` data model,
the serving-STH calculation (`CalculateServingSTH`), election-participation
gating (`DetermineElectionParticipation`), the local mutators
(`NewTreeHead`, `ContiguousTreeSizeUpdated`, `SetNodeHostPort`), the three
watch handlers, and the publisher loop body (`ClusterServingSTHUpdater`),
together with proofs about them.

Modelling conventions: protobuf `int64`/`uint64` counters that the code checks
to be nonnegative are `Nat`; the `double minimum_serving_fraction` and the
`serving_fraction` division are modelled exactly over `ℚ`; `CHECK`/`CHECK_GE`/
`CHECK_EQ` aborts are modelled by functions returning `Option` (`none` =
process abort, nothing recorded); `std::map` is an association list kept
sorted by key; `MasterElection::IsMaster()` is an external boolean input.
-/

namespace CertTrans

/-- `ct::SignedTreeHead` (the fields the controller uses): `tree_size` is an
`int64` which `CalculateServingSTH` checks nonnegative (`CHECK_LE(0, ...)`),
`timestamp` a `uint64`.  A default-constructed message has both fields 0. -/
structure SignedTreeHead where
  tree_size : Nat
  timestamp : Nat
deriving DecidableEq, Repr

/-- `ct::ClusterNodeState` (the fields the controller uses). -/
structure ClusterNodeState where
  node_id : String
  hostname : String
  log_port : Nat
  newest_sth : Option SignedTreeHead
  contiguous_tree_size : Nat
deriving DecidableEq, Repr

/-- `ct::ClusterConfig`: `minimum_serving_nodes` (integer, proto default 0)
and `minimum_serving_fraction` (a `double`, modelled as `ℚ`, proto default 0). -/
structure ClusterConfig where
  minimum_serving_nodes : Nat
  minimum_serving_fraction : ℚ
deriving DecidableEq, Repr

/-- The mutex-protected state of `ClusterStateController`.  `all_node_states`
models the `std::map<std::string, ct::ClusterNodeState> all_node_states_`
as an association list kept sorted by key. -/
structure ControllerState where
  local_node_state : ClusterNodeState
  all_node_states : List (String × ClusterNodeState)
  cluster_config : ClusterConfig
  actual_serving_sth : Option SignedTreeHead
  calculated_serving_sth : Option SignedTreeHead
  update_required : Bool
  exiting : Bool
deriving DecidableEq, Repr

/-- `all_node_states_[node_id] = state` on a sorted association list
(`std::map::operator[]` insert-or-replace). -/
def mapInsert (k : String) (v : ClusterNodeState) :
    List (String × ClusterNodeState) → List (String × ClusterNodeState)
  | [] => [(k, v)]
  | (k', v') :: rest =>
    if k < k' then (k, v) :: (k', v') :: rest
    else if k = k' then (k, v) :: rest
    else (k', v') :: mapInsert k v rest

/-- `CHECK_EQ(1, all_node_states_.erase(node_id))`: erase the key, aborting
(`none`) when it is absent. -/
def mapErase (k : String) :
    List (String × ClusterNodeState) → Option (List (String × ClusterNodeState))
  | [] => none
  | (k', v') :: rest =>
    if k = k' then some rest
    else
      match mapErase k rest with
      | some rest' => some ((k', v') :: rest')
      | none => none

/-- The entry `num_nodes_by_sth_size[s]` of the map built at the top of
`CalculateServingSTH`: how many peers carry a `newest_sth` of tree size `s`
(peers without a `newest_sth` contribute to no entry). -/
def num_nodes_at_size : List (String × ClusterNodeState) → Nat → Nat
  | [], _ => 0
  | p :: rest, s =>
    (match p.2.newest_sth with
     | some sth => if sth.tree_size = s then 1 else 0
     | none => 0) + num_nodes_at_size rest s

/-- The number of peers whose `newest_sth.tree_size` is at least `s`
(peers without a `newest_sth` are not counted). -/
def countAtLeast : List (String × ClusterNodeState) → Nat → Nat
  | [], _ => 0
  | p :: rest, s =>
    (match p.2.newest_sth with
     | some sth => if s ≤ sth.tree_size then 1 else 0
     | none => 0) + countAtLeast rest s

/-- Folding the peer map into the entry `sth_by_size[s]`: the accumulator
starts as the default-constructed `SignedTreeHead` that `operator[]` creates
(all fields 0, in particular timestamp 0) and is replaced only by a peer STH
of tree size `s` with a strictly larger timestamp. -/
def bestSthAux (s : Nat) : List (String × ClusterNodeState) → SignedTreeHead → SignedTreeHead
  | [], acc => acc
  | p :: rest, acc =>
    match p.2.newest_sth with
    | some sth =>
      if sth.tree_size = s ∧ acc.timestamp < sth.timestamp
      then bestSthAux s rest sth
      else bestSthAux s rest acc
    | none => bestSthAux s rest acc

/-- The entry `sth_by_size[s]` of the map built at the top of
`CalculateServingSTH`. -/
def sth_by_size (peers : List (String × ClusterNodeState)) (s : Nat) : SignedTreeHead :=
  bestSthAux s peers ⟨0, 0⟩

/-- Insert a size into a strictly descending list of sizes (no duplicates). -/
def insertSizeDesc (s : Nat) : List Nat → List Nat
  | [] => [s]
  | t :: rest =>
    if t < s then s :: t :: rest
    else if s = t then t :: rest
    else t :: insertSizeDesc s rest

/-- The key set of `num_nodes_by_sth_size`, in the reverse (descending)
`std::map` iteration order that the search loop of `CalculateServingSTH`
uses. -/
def sizesOf : List (String × ClusterNodeState) → List Nat
  | [] => []
  | p :: rest =>
    match p.2.newest_sth with
    | some sth => insertSizeDesc sth.tree_size (sizesOf rest)
    | none => sizesOf rest

/-- The descending search loop of `CalculateServingSTH` (lines 220-242):
walk the sizes from largest down, stop once below `current_tree_size`,
accumulate `num_nodes_seen`, and return the first `sth_by_size` entry whose
running coverage satisfies both quorum thresholds.  `total` is
`all_node_states_.size()`; the `serving_fraction` double division is modelled
exactly in `ℚ`. -/
def findServing (cfg : ClusterConfig) (total : Nat)
    (peers : List (String × ClusterNodeState)) (current_tree_size : Nat) :
    List Nat → Nat → Option SignedTreeHead
  | [], _ => none
  | s :: rest, num_nodes_seen =>
    if s < current_tree_size then none
    else
      let seen := num_nodes_seen + num_nodes_at_size peers s
      if cfg.minimum_serving_fraction ≤ (seen : ℚ) / (total : ℚ) ∧
         cfg.minimum_serving_nodes ≤ seen
      then some (sth_by_size peers s)
      else findServing cfg total peers current_tree_size rest seen

/-- The value `CalculateServingSTH` would assign to `calculated_serving_sth_`
(`none` when the loop finds no qualifying size and leaves it unchanged).
`prev` is the previous `calculated_serving_sth_`, giving
`current_tree_size` (0 when unset). -/
def servingCandidate (cfg : ClusterConfig) (peers : List (String × ClusterNodeState))
    (prev : Option SignedTreeHead) : Option SignedTreeHead :=
  findServing cfg peers.length peers
    (match prev with
     | some sth => sth.tree_size
     | none => 0)
    (sizesOf peers) 0

/-- `ClusterStateController::CalculateServingSTH`.  Returns the new state and
whether `update_required_cv_.notify_all()` was called.  On a hit the
calculated STH is assigned and, if this node is master, `update_required_` is
set and the publisher woken; on a miss everything is left unchanged. -/
def CalculateServingSTH (isMaster : Bool) (st : ControllerState) :
    ControllerState × Bool :=
  match servingCandidate st.cluster_config st.all_node_states st.calculated_serving_sth with
  | some sth =>
    ({ st with
        calculated_serving_sth := some sth,
        update_required := if isMaster then true else st.update_required },
     isMaster)
  | none => (st, false)

/-- A call made on the `MasterElection`. -/
inductive ElectionAction where
  | stopElection
  | startElection
deriving DecidableEq, Repr

/-- `ClusterStateController::DetermineElectionParticipation` (lines 250-275). -/
def DetermineElectionParticipation (st : ControllerState) : ElectionAction :=
  match st.actual_serving_sth with
  | none => ElectionAction.stopElection
  | some sth =>
    if st.local_node_state.contiguous_tree_size < sth.tree_size
    then ElectionAction.stopElection
    else ElectionAction.startElection

/-- A write issued against the `ConsistentStore`. -/
inductive StoreCall where
  | setClusterNodeState (s : ClusterNodeState)
  | setServingSTH (s : SignedTreeHead)
deriving DecidableEq, Repr

/-- The observable outcome of one state transition: the new controller state,
the store writes it issued, the election calls it made, and whether it woke
the publisher. -/
structure StepResult where
  state : ControllerState
  storeCalls : List StoreCall
  electionActions : List ElectionAction
  notified : Bool
deriving DecidableEq, Repr

/-- `ClusterStateController::PushLocalNodeState`: re-evaluate election
participation, then write the local node state to the store. -/
def PushLocalNodeState (st : ControllerState) : StepResult :=
  { state := st,
    storeCalls := [StoreCall.setClusterNodeState st.local_node_state],
    electionActions := [DetermineElectionParticipation st],
    notified := false }

/-- `ClusterStateController::NewTreeHead` (lines 60-69):
`CHECK_GE(sth.timestamp(), local_node_state_.newest_sth().timestamp())` when a
newest STH already exists — a violation aborts (`none`) before anything is
recorded or published; otherwise record the STH and push the node state. -/
def NewTreeHead (sth : SignedTreeHead) (st : ControllerState) : Option StepResult :=
  match st.local_node_state.newest_sth with
  | some prev =>
    if prev.timestamp ≤ sth.timestamp then
      some (PushLocalNodeState
        { st with local_node_state := { st.local_node_state with newest_sth := some sth } })
    else none
  | none =>
    some (PushLocalNodeState
      { st with local_node_state := { st.local_node_state with newest_sth := some sth } })

/-- `ClusterStateController::ContiguousTreeSizeUpdated` (lines 72-80):
the new size must not regress (`CHECK_GE`), else abort. -/
def ContiguousTreeSizeUpdated (n : Nat) (st : ControllerState) : Option StepResult :=
  if st.local_node_state.contiguous_tree_size ≤ n then
    some (PushLocalNodeState
      { st with local_node_state := { st.local_node_state with contiguous_tree_size := n } })
  else none

/-- `ClusterStateController::SetNodeHostPort`. -/
def SetNodeHostPort (host : String) (port : Nat) (st : ControllerState) : StepResult :=
  PushLocalNodeState
    { st with local_node_state :=
        { st.local_node_state with hostname := host, log_port := port } }

/-- A watch update `Update<T>`: existence flag plus the entry. -/
structure Update (α : Type) where
  exists_ : Bool
  entry : α
deriving DecidableEq, Repr

/-- Apply one `Update<ct::ClusterNodeState>` to the peer map: insert/replace
on `exists_`, otherwise erase (absence aborts, `CHECK_EQ(1, ...)`). -/
def applyNodeStateUpdate (m : List (String × ClusterNodeState))
    (u : Update ClusterNodeState) : Option (List (String × ClusterNodeState)) :=
  if u.exists_ then some (mapInsert u.entry.node_id u.entry m)
  else mapErase u.entry.node_id m

/-- Apply a batch of node-state updates in order. -/
def applyNodeStateUpdates (m : List (String × ClusterNodeState)) :
    List (Update ClusterNodeState) → Option (List (String × ClusterNodeState))
  | [] => some m
  | u :: rest =>
    match applyNodeStateUpdate m u with
    | some m' => applyNodeStateUpdates m' rest
    | none => none

/-- `ClusterStateController::OnClusterStateUpdated` (lines 129-143):
fold the batch into `all_node_states_`, then recalculate the serving STH. -/
def OnClusterStateUpdated (isMaster : Bool) (updates : List (Update ClusterNodeState))
    (st : ControllerState) : Option StepResult :=
  match applyNodeStateUpdates st.all_node_states updates with
  | some m =>
    match CalculateServingSTH isMaster { st with all_node_states := m } with
    | (st', notified) =>
      some { state := st', storeCalls := [], electionActions := [], notified := notified }
  | none => none

/-- `ClusterStateController::OnClusterConfigUpdated` (lines 146-162): a
non-existent config is only warned about (the cached config is kept);
otherwise replace the config and recalculate. -/
def OnClusterConfigUpdated (isMaster : Bool) (u : Update ClusterConfig)
    (st : ControllerState) : StepResult :=
  if u.exists_ then
    match CalculateServingSTH isMaster { st with cluster_config := u.entry } with
    | (st', notified) =>
      { state := st', storeCalls := [], electionActions := [], notified := notified }
  else
    { state := st, storeCalls := [], electionActions := [], notified := false }

/-- `ClusterStateController::OnServingSthUpdated` (lines 165-181): set or
clear `actual_serving_sth_`, then re-evaluate election participation. -/
def OnServingSthUpdated (u : Update SignedTreeHead) (st : ControllerState) : StepResult :=
  match
    (if u.exists_ then { st with actual_serving_sth := some u.entry }
     else { st with actual_serving_sth := none } : ControllerState)
  with
  | st' =>
    { state := st', storeCalls := [],
      electionActions := [DetermineElectionParticipation st'], notified := false }

/-- One watch event or local mutation delivered to the controller. -/
inductive Event where
  | nodeStates (updates : List (Update ClusterNodeState))
  | clusterConfig (u : Update ClusterConfig)
  | servingSth (u : Update SignedTreeHead)
  | newTreeHead (sth : SignedTreeHead)
  | contiguousTreeSize (n : Nat)
  | hostPort (host : String) (port : Nat)
deriving DecidableEq, Repr

/-- Dispatch one event (`isMaster` is the value `election_->IsMaster()` would
return during the event).  `none` models a `CHECK` abort. -/
def applyEvent (isMaster : Bool) (e : Event) (st : ControllerState) : Option StepResult :=
  match e with
  | Event.nodeStates updates => OnClusterStateUpdated isMaster updates st
  | Event.clusterConfig u => some (OnClusterConfigUpdated isMaster u st)
  | Event.servingSth u => some (OnServingSthUpdated u st)
  | Event.newTreeHead sth => NewTreeHead sth st
  | Event.contiguousTreeSize n => ContiguousTreeSizeUpdated n st
  | Event.hostPort host port => some (SetNodeHostPort host port st)

/-- Run a sequence of events, each with its own `IsMaster()` answer. -/
def runEvents : List (Bool × Event) → ControllerState → Option ControllerState
  | [], st => some st
  | (m, e) :: rest, st =>
    match applyEvent m e st with
    | some r => runEvents rest r.state
    | none => none

/-- The controller state right after construction: empty local state and peer
map, default-constructed `ClusterConfig` (`minimum_serving_nodes = 0`,
`minimum_serving_fraction = 0.0`), no serving STHs, no pending update. -/
def initialState : ControllerState :=
  { local_node_state :=
      { node_id := "", hostname := "", log_port := 0,
        newest_sth := none, contiguous_tree_size := 0 },
    all_node_states := [],
    cluster_config := { minimum_serving_nodes := 0, minimum_serving_fraction := 0 },
    actual_serving_sth := none,
    calculated_serving_sth := none,
    update_required := false,
    exiting := false }

/-- What one wake-up of the publisher loop did. -/
inductive UpdaterOutcome where
  | published (sth : SignedTreeHead)
  | skipped
  | exited
deriving DecidableEq, Repr

/-- One iteration of `ClusterStateController::ClusterServingSTHUpdater`
(lines 280-304) after the condition variable released it (which requires
`update_required_ || exiting_`): exit when `exiting_`; otherwise
`CHECK(update_required_)` and `CHECK_NOTNULL(calculated_serving_sth_)`
(aborts modelled by `none`), snapshot the calculated STH, clear
`update_required_`, release the lock, and write the snapshot to the store
only if `election_->IsMaster()` holds at that moment. -/
def ClusterServingSTHUpdaterBody (isMaster : Bool) (st : ControllerState) :
    Option (ControllerState × UpdaterOutcome) :=
  if st.exiting then some (st, UpdaterOutcome.exited)
  else if st.update_required then
    match st.calculated_serving_sth with
    | some sth =>
      if isMaster
      then some ({ st with update_required := false }, UpdaterOutcome.published sth)
      else some ({ st with update_required := false }, UpdaterOutcome.skipped)
    | none => none
  else none

/-! ### Concrete states used by the end-to-end scenarios of the specification -/

/-- The peer map of scenario S1: A at size 10 / timestamp 100, B at 10/110,
C at 7/90, and D without a `newest_sth`. -/
def peersS1 : List (String × ClusterNodeState) :=
  [("A", ⟨"A", "", 0, some ⟨10, 100⟩, 0⟩),
   ("B", ⟨"B", "", 0, some ⟨10, 110⟩, 0⟩),
   ("C", ⟨"C", "", 0, some ⟨7, 90⟩, 0⟩),
   ("D", ⟨"D", "", 0, none, 0⟩)]

/-- The cluster config of scenarios S1/S3: `minimum_serving_nodes = 2`,
`minimum_serving_fraction = 0.5`. -/
def cfgS1 : ClusterConfig := ⟨2, 1/2⟩

/-- Scenario S1: the S1 peers and config, no calculated serving STH yet. -/
def stS1 : ControllerState :=
  { initialState with all_node_states := peersS1, cluster_config := cfgS1 }

/-- The peer map of scenario S3 (peer B of S1 has departed). -/
def peersS3 : List (String × ClusterNodeState) :=
  [("A", ⟨"A", "", 0, some ⟨10, 100⟩, 0⟩),
   ("C", ⟨"C", "", 0, some ⟨7, 90⟩, 0⟩),
   ("D", ⟨"D", "", 0, none, 0⟩)]

/-- Scenario S3: calculated serving STH already `{10, 110}`, peer B gone. -/
def stS3 : ControllerState :=
  { initialState with all_node_states := peersS3, cluster_config := cfgS1,
                      calculated_serving_sth := some ⟨10, 110⟩ }

/-- The state after S1 was calculated and the publisher consumed the signal:
peer states, config and calculated STH unchanged, `update_required_` cleared. -/
def stRepeat : ControllerState :=
  { stS1 with calculated_serving_sth := some ⟨10, 110⟩ }

/-- Two peers at tree size 10 whose `newest_sth.timestamp` is 0. -/
def peersC9 : List (String × ClusterNodeState) :=
  [("A", ⟨"A", "", 0, some ⟨10, 0⟩, 0⟩),
   ("B", ⟨"B", "", 0, some ⟨10, 0⟩, 0⟩)]

/-- First watch batch of the regression run: peer A appears with an STH of
size 5, timestamp 100 (the cluster config is still the default one). -/
def regressionEvents1 : List (Bool × Event) :=
  [(false, Event.nodeStates [⟨true, ⟨"A", "", 0, some ⟨5, 100⟩, 0⟩⟩])]

/-- Second watch batch of the regression run: peer A replaces its STH by one
of size 10 whose timestamp is 0. -/
def regressionEvents2 : List (Bool × Event) :=
  [(false, Event.nodeStates [⟨true, ⟨"A", "", 0, some ⟨10, 0⟩, 0⟩⟩])]

/-- A freshly constructed controller that has received one peer with an STH
of size 3 and no cluster config yet. -/
def stBootstrap : ControllerState :=
  { initialState with all_node_states := [("A", ⟨"A", "", 0, some ⟨3, 7⟩, 0⟩)] }

/-- A controller state in which the publisher has been signalled. -/
def stPubW : ControllerState :=
  { initialState with update_required := true, calculated_serving_sth := some ⟨10, 110⟩ }

/-- A controller that observes a serving STH of size 10 and has replicated 12
entries contiguously. -/
def stElectionW : ControllerState :=
  { initialState with
      actual_serving_sth := some ⟨10, 110⟩,
      local_node_state := { initialState.local_node_state with contiguous_tree_size := 12 } }

/-- A controller whose local newest STH has timestamp 100. -/
def stNewTreeW : ControllerState :=
  { initialState with local_node_state :=
      { initialState.local_node_state with newest_sth := some ⟨5, 100⟩ } }

/-! ### Helper lemmas about the serving-STH search -/
lemma countAtLeast_succ_add (peers : List (String × ClusterNodeState)) (s : Nat) :
    countAtLeast peers s = countAtLeast peers (s + 1) + num_nodes_at_size peers s := by
  induction peers with
  | nil => rfl
  | cons p rest ih =>
    simp only [countAtLeast, num_nodes_at_size]
    rcases h : p.2.newest_sth with _ | sth
    · simpa using ih
    · by_cases h1 : s ≤ sth.tree_size <;> by_cases h2 : s + 1 ≤ sth.tree_size <;>
        by_cases h3 : sth.tree_size = s <;> simp [h1, h2, h3] <;> omega

lemma countAtLeast_anti (peers : List (String × ClusterNodeState)) {s t : Nat} (h : s ≤ t) :
    countAtLeast peers t ≤ countAtLeast peers s := by
  induction peers with
  | nil => exact Nat.le_refl _
  | cons p rest ih =>
    simp only [countAtLeast]
    rcases hp : p.2.newest_sth with _ | sth
    · simpa using ih
    · by_cases h1 : t ≤ sth.tree_size <;> by_cases h2 : s ≤ sth.tree_size <;>
        simp [h1, h2] <;> omega

lemma countAtLeast_gap (peers : List (String × ClusterNodeState)) (s : Nat) :
    ∀ b, s ≤ b →
    (∀ t, s ≤ t → t < b → num_nodes_at_size peers t = 0) →
    countAtLeast peers s = countAtLeast peers b := by
  intro b
  induction b with
  | zero =>
    intro hsb _
    have hs : s = 0 := by omega
    subst hs; rfl
  | succ n ih =>
    intro hsb hgap
    rcases Nat.lt_or_ge n s with h | h
    · have hs : s = n + 1 := by omega
      subst hs; rfl
    · have h1 : countAtLeast peers s = countAtLeast peers n :=
        ih h (fun t ht1 ht2 => hgap t ht1 (by omega))
      have h2 : countAtLeast peers n = countAtLeast peers (n + 1) + num_nodes_at_size peers n :=
        countAtLeast_succ_add peers n
      have h3 : num_nodes_at_size peers n = 0 := hgap n h (by omega)
      omega

lemma countAtLeast_eq_zero (peers : List (String × ClusterNodeState)) (b : Nat)
    (hb : ∀ s, 0 < num_nodes_at_size peers s → s < b) :
    countAtLeast peers b = 0 := by
  induction peers with
  | nil => rfl
  | cons p rest ih =>
    have hrest : ∀ s, 0 < num_nodes_at_size rest s → s < b := by
      intro s hs
      apply hb
      simp only [num_nodes_at_size]
      omega
    simp only [countAtLeast]
    rcases hp : p.2.newest_sth with _ | sth
    · simpa using ih hrest
    · have hlt : sth.tree_size < b := by
        apply hb
        simp [num_nodes_at_size, hp]
      rw [ih hrest]
      simp [hlt]

lemma bestSthAux_tree_size (s : Nat) (peers : List (String × ClusterNodeState)) :
    ∀ acc : SignedTreeHead, (bestSthAux s peers acc).tree_size = acc.tree_size ∨
      (bestSthAux s peers acc).tree_size = s := by
  induction peers with
  | nil => intro acc; left; rfl
  | cons p rest ih =>
    intro acc
    rcases hp : p.2.newest_sth with _ | sth
    · simp only [bestSthAux, hp]
      exact ih acc
    · simp only [bestSthAux, hp]
      by_cases hc : sth.tree_size = s ∧ acc.timestamp < sth.timestamp
      · rw [if_pos hc]
        rcases ih sth with h | h
        · right; rw [h, hc.1]
        · right; exact h
      · rw [if_neg hc]; exact ih acc

lemma sth_by_size_tree_size_le (peers : List (String × ClusterNodeState)) (s : Nat) :
    (sth_by_size peers s).tree_size ≤ s := by
  rcases bestSthAux_tree_size s peers ⟨0, 0⟩ with h | h <;>
    simp only [sth_by_size] at * <;> omega

lemma mem_insertSizeDesc {t s : Nat} {L : List Nat} :
    t ∈ insertSizeDesc s L ↔ t = s ∨ t ∈ L := by
  induction L with
  | nil => simp [insertSizeDesc]
  | cons a rest ih =>
    simp only [insertSizeDesc]
    by_cases h1 : a < s
    · simp [h1, List.mem_cons]
    · by_cases h2 : s = a
      · subst h2; simp [h1, List.mem_cons]
      · simp [h1, h2, List.mem_cons, ih]; tauto

lemma pairwise_insertSizeDesc {s : Nat} {L : List Nat}
    (h : L.Pairwise (· > ·)) : (insertSizeDesc s L).Pairwise (· > ·) := by
  induction L with
  | nil => simp [insertSizeDesc]
  | cons a rest ih =>
    rw [List.pairwise_cons] at h
    obtain ⟨ha, hrest⟩ := h
    simp only [insertSizeDesc]
    by_cases h1 : a < s
    · rw [if_pos h1]
      refine List.Pairwise.cons ?_ (List.Pairwise.cons ha hrest)
      intro b hb
      rcases List.mem_cons.mp hb with rfl | hb
      · omega
      · have := ha b hb; omega
    · by_cases h2 : s = a
      · rw [if_neg h1, if_pos h2]
        exact List.Pairwise.cons ha hrest
      · rw [if_neg h1, if_neg h2]
        refine List.Pairwise.cons ?_ (ih hrest)
        intro b hb
        rcases mem_insertSizeDesc.mp hb with rfl | hb
        · omega
        · exact ha b hb

lemma pairwise_sizesOf (peers : List (String × ClusterNodeState)) :
    (sizesOf peers).Pairwise (· > ·) := by
  induction peers with
  | nil => simp [sizesOf]
  | cons p rest ih =>
    simp only [sizesOf]
    rcases hp : p.2.newest_sth with _ | sth
    · exact ih
    · exact pairwise_insertSizeDesc ih

lemma mem_sizesOf {peers : List (String × ClusterNodeState)} {s : Nat} :
    s ∈ sizesOf peers ↔ 0 < num_nodes_at_size peers s := by
  induction peers with
  | nil => simp [sizesOf, num_nodes_at_size]
  | cons p rest ih =>
    rcases hp : p.2.newest_sth with _ | sth
    · simp only [sizesOf, num_nodes_at_size, hp]
      simpa using ih
    · simp only [sizesOf, num_nodes_at_size, hp, mem_insertSizeDesc, ih]
      by_cases ht : sth.tree_size = s
      · simp [ht]
      · have : ¬ s = sth.tree_size := fun h => ht h.symm
        simp [ht, this]

lemma exists_size_bound (peers : List (String × ClusterNodeState)) :
    ∃ b, ∀ s, 0 < num_nodes_at_size peers s → s < b := by
  induction peers with
  | nil => exact ⟨0, by simp [num_nodes_at_size]⟩
  | cons p rest ih =>
    obtain ⟨b, hb⟩ := ih
    rcases hp : p.2.newest_sth with _ | sth
    · refine ⟨b, fun s hs => hb s ?_⟩
      simp only [num_nodes_at_size, hp] at hs
      simpa using hs
    · refine ⟨max b (sth.tree_size + 1), fun s hs => ?_⟩
      simp only [num_nodes_at_size, hp] at hs
      by_cases ht : sth.tree_size = s
      · omega
      · have h0 : 0 < num_nodes_at_size rest s := by
          simp only [ht, if_false] at hs
          omega
        have := hb s h0
        omega


lemma findServing_quorum (cfg : ClusterConfig) (peers : List (String × ClusterNodeState))
    (floor : Nat) (sth : SignedTreeHead) :
    ∀ (L : List Nat) (seen b : Nat),
      L.Pairwise (· > ·) →
      (∀ s, s ∈ L → s < b) →
      (∀ s, 0 < num_nodes_at_size peers s → s < b → s ∈ L) →
      seen = countAtLeast peers b →
      findServing cfg peers.length peers floor L seen = some sth →
      ∃ s0, floor ≤ s0 ∧ sth = sth_by_size peers s0 ∧
        cfg.minimum_serving_nodes ≤ countAtLeast peers s0 ∧
        cfg.minimum_serving_fraction ≤
          (countAtLeast peers s0 : ℚ) / (peers.length : ℚ) := by
  intro L
  induction L with
  | nil =>
    intro seen b _ _ _ _ hfind
    simp [findServing] at hfind
  | cons s rest ih =>
    intro seen b hpw hlt hcomp hseen hfind
    have hsb : s < b := hlt s (List.mem_cons_self s rest)
    rw [List.pairwise_cons] at hpw
    obtain ⟨hhead, hrestpw⟩ := hpw
    by_cases hstop : s < floor
    · simp only [findServing, if_pos hstop] at hfind
      cases hfind
    · simp only [findServing, if_neg hstop] at hfind
      have hgap : countAtLeast peers (s + 1) = countAtLeast peers b := by
        apply countAtLeast_gap peers (s + 1) b (by omega)
        intro t ht1 ht2
        by_contra hne
        have hpos : 0 < num_nodes_at_size peers t := Nat.pos_of_ne_zero hne
        have := hcomp t hpos ht2
        rcases List.mem_cons.mp this with rfl | hmem
        · omega
        · have := hhead t hmem
          omega
      have hseenEq : seen + num_nodes_at_size peers s = countAtLeast peers s := by
        have := countAtLeast_succ_add peers s
        omega
      rw [hseenEq] at hfind
      by_cases hcond : cfg.minimum_serving_fraction ≤
          (countAtLeast peers s : ℚ) / (peers.length : ℚ) ∧
          cfg.minimum_serving_nodes ≤ countAtLeast peers s
      · rw [if_pos hcond] at hfind
        refine ⟨s, by omega, ?_, hcond.2, hcond.1⟩
        exact (Option.some.injEq _ _ ▸ hfind).symm
      · rw [if_neg hcond] at hfind
        refine ih (countAtLeast peers s) s hrestpw ?_ ?_ rfl hfind
        · intro u hu
          exact hhead u hu
        · intro u hupos hus
          have hub : u < b := by omega
          have := hcomp u hupos hub
          rcases List.mem_cons.mp this with rfl | hmem
          · omega
          · exact hmem


/-- Claim C2: whenever `CalculateServingSTH` assigns a calculated serving STH
`sth`, then at that state the number of peers whose `newest_sth.tree_size` is
at least `sth.tree_size` is ≥ `minimum_serving_nodes`, and that number
divided by the total number of peer states is ≥ `minimum_serving_fraction`. -/
theorem quorum_soundness (st : ControllerState) (sth : SignedTreeHead)
    (h : servingCandidate st.cluster_config st.all_node_states st.calculated_serving_sth
      = some sth) :
    (∀ isMaster, (CalculateServingSTH isMaster st).1.calculated_serving_sth = some sth) ∧
    st.cluster_config.minimum_serving_nodes ≤ countAtLeast st.all_node_states sth.tree_size ∧
    st.cluster_config.minimum_serving_fraction ≤
      (countAtLeast st.all_node_states sth.tree_size : ℚ) / (st.all_node_states.length : ℚ) := by
  obtain ⟨b, hb⟩ := exists_size_bound st.all_node_states
  have h0 : (0 : Nat) = countAtLeast st.all_node_states b :=
    (countAtLeast_eq_zero _ b hb).symm
  rw [servingCandidate.eq_def] at h
  obtain ⟨s0, hfloor, hbest, hnodes, hfrac⟩ :=
    findServing_quorum st.cluster_config st.all_node_states _ sth
      (sizesOf st.all_node_states) 0 b
      (pairwise_sizesOf _)
      (fun s hs => hb s (mem_sizesOf.mp hs))
      (fun s hpos _ => mem_sizesOf.mpr hpos)
      h0 h
  have hts : sth.tree_size ≤ s0 := by
    have := sth_by_size_tree_size_le st.all_node_states s0
    rw [← hbest] at this
    exact this
  have hmono : countAtLeast st.all_node_states s0 ≤ countAtLeast st.all_node_states sth.tree_size :=
    countAtLeast_anti _ hts
  refine ⟨?_, by omega, ?_⟩
  · intro m
    simp [CalculateServingSTH, servingCandidate, h]
  · refine le_trans hfrac ?_
    rcases Nat.eq_zero_or_pos st.all_node_states.length with hN | hN
    · rw [hN]
      simp
    · have hNQ : (0 : ℚ) < (st.all_node_states.length : ℚ) := by exact_mod_cast hN
      have hmQ : (countAtLeast st.all_node_states s0 : ℚ) ≤
          (countAtLeast st.all_node_states sth.tree_size : ℚ) := by exact_mod_cast hmono
      exact (div_le_div_iff_of_pos_right hNQ).mpr hmQ

/-- Claim C4: `DetermineElectionParticipation` stops the election when
`ActualServingSTH` is unset, stops it when the serving STH's `tree_size`
exceeds the local contiguous tree size, and otherwise starts it; hence the
node participates iff `ActualServingSTH` is set with `tree_size` at most the
local contiguous tree size. -/
theorem election_participation_rule (st : ControllerState) :
    (st.actual_serving_sth = none →
      DetermineElectionParticipation st = ElectionAction.stopElection) ∧
    (∀ sth, st.actual_serving_sth = some sth →
      st.local_node_state.contiguous_tree_size < sth.tree_size →
      DetermineElectionParticipation st = ElectionAction.stopElection) ∧
    (DetermineElectionParticipation st = ElectionAction.startElection ↔
      ∃ sth, st.actual_serving_sth = some sth ∧
        sth.tree_size ≤ st.local_node_state.contiguous_tree_size) := by
  rcases h : st.actual_serving_sth with _ | sth
  · refine ⟨fun _ => by simp [DetermineElectionParticipation, h], ?_, ?_⟩
    · intro sth hs
      cases hs
    · constructor
      · intro hstart
        simp [DetermineElectionParticipation, h] at hstart
      · rintro ⟨sth, hs, -⟩
        cases hs
  · refine ⟨?_, ?_, ?_⟩
    · intro hnone
      cases hnone
    · intro sth' hs hlt
      injection hs with hs
      subst hs
      simp [DetermineElectionParticipation, h, hlt]
    · constructor
      · intro hstart
        by_cases hlt : st.local_node_state.contiguous_tree_size < sth.tree_size
        · simp [DetermineElectionParticipation, h, hlt] at hstart
        · exact ⟨sth, rfl, by omega⟩
      · rintro ⟨sth', hs, hle⟩
        injection hs with hs
        subst hs
        have hlt : ¬ st.local_node_state.contiguous_tree_size < sth.tree_size := by omega
        simp [DetermineElectionParticipation, h, hlt]

/-- Claim C5: the publisher loop body issues a store write only when
`IsMaster()` returned true at the moment of the write, and no other code
path of the controller ever emits a `set_serving_sth` store call. -/
theorem publisher_master_gated :
    (∀ (isMaster : Bool) (st st' : ControllerState) (sth : SignedTreeHead),
      ClusterServingSTHUpdaterBody isMaster st = some (st', UpdaterOutcome.published sth) →
      isMaster = true) ∧
    (∀ (isMaster : Bool) (e : Event) (st : ControllerState) (r : StepResult)
      (sth : SignedTreeHead),
      applyEvent isMaster e st = some r →
      StoreCall.setServingSTH sth ∉ r.storeCalls) := by
  constructor
  · intro isMaster st st' sth h
    cases isMaster
    · exfalso
      simp only [ClusterServingSTHUpdaterBody] at h
      by_cases h1 : st.exiting
      · simp [h1] at h
      · by_cases h2 : st.update_required
        · rcases hc : st.calculated_serving_sth with _ | s <;> simp [h1, h2, hc] at h
        · simp [h1, h2] at h
    · rfl
  · intro isMaster e st r sth h
    cases e with
    | nodeStates updates =>
      simp only [applyEvent, OnClusterStateUpdated] at h
      rcases hm : applyNodeStateUpdates st.all_node_states updates with _ | m
      · rw [hm] at h
        cases h
      · rw [hm] at h
        simp only [Option.some.injEq] at h
        subst h
        simp
    | clusterConfig u =>
      simp only [applyEvent, Option.some.injEq] at h
      subst h
      by_cases hu : u.exists_ <;> simp [OnClusterConfigUpdated, hu]
    | servingSth u =>
      simp only [applyEvent, Option.some.injEq] at h
      subst h
      simp [OnServingSthUpdated]
    | newTreeHead s =>
      rcases hn : st.local_node_state.newest_sth with _ | prev
      · simp only [applyEvent, NewTreeHead, hn, Option.some.injEq] at h
        subst h
        simp [PushLocalNodeState]
      · by_cases ht : prev.timestamp ≤ s.timestamp
        · simp only [applyEvent, NewTreeHead, hn, if_pos ht, Option.some.injEq] at h
          subst h
          simp [PushLocalNodeState]
        · simp only [applyEvent, NewTreeHead, hn, if_neg ht] at h
          cases h
    | contiguousTreeSize n =>
      simp only [applyEvent, ContiguousTreeSizeUpdated] at h
      by_cases hc : st.local_node_state.contiguous_tree_size ≤ n
      · rw [if_pos hc] at h
        simp only [Option.some.injEq] at h
        subst h
        simp [PushLocalNodeState]
      · rw [if_neg hc] at h
        cases h
    | hostPort host port =>
      simp only [applyEvent, Option.some.injEq] at h
      subst h
      simp [SetNodeHostPort, PushLocalNodeState]

/-- Claim C8: `NewTreeHead` aborts (recording and publishing nothing) exactly
when a previous newest STH exists and the new STH's timestamp is strictly
smaller; on success it records the new STH and publishes the node state. -/
theorem new_tree_head_timestamp_contract (st : ControllerState) (sth : SignedTreeHead) :
    (NewTreeHead sth st = none ↔
      ∃ prev, st.local_node_state.newest_sth = some prev ∧
        sth.timestamp < prev.timestamp) ∧
    (∀ r, NewTreeHead sth st = some r →
      r.state.local_node_state.newest_sth = some sth ∧
      StoreCall.setClusterNodeState r.state.local_node_state ∈ r.storeCalls) := by
  rcases hn : st.local_node_state.newest_sth with _ | prev
  · constructor
    · simp [NewTreeHead, hn]
    · intro r h
      simp only [NewTreeHead, hn, Option.some.injEq] at h
      subst h
      simp [PushLocalNodeState]
  · by_cases ht : prev.timestamp ≤ sth.timestamp
    · constructor
      · simp only [NewTreeHead, hn, if_pos ht]
        constructor
        · intro hc
          cases hc
        · rintro ⟨prev', hp, hlt⟩
          injection hp with hp
          subst hp
          omega
      · intro r h
        simp only [NewTreeHead, hn, if_pos ht, Option.some.injEq] at h
        subst h
        simp [PushLocalNodeState]
    · constructor
      · simp only [NewTreeHead, hn, if_neg ht]
        constructor
        · intro _
          exact ⟨prev, rfl, by omega⟩
        · intro _
          trivial
      · intro r h
        simp only [NewTreeHead, hn, if_neg ht] at h
        cases h

/-- Claim C10: the initial cluster config is the default-constructed one
(`minimum_serving_nodes = 0`, `minimum_serving_fraction = 0`), a config watch
event with `exists_ = false` leaves the cached config unchanged, and under
that default config the first peer-state batch containing any peer with a
`newest_sth` immediately sets the calculated serving STH to the
`sth_by_size` entry at the largest peer size. -/
theorem default_config_bootstrap (st : ControllerState) (s : Nat) (rest : List Nat)
    (hcfg : st.cluster_config = ⟨0, 0⟩)
    (hcalc : st.calculated_serving_sth = none)
    (hsz : sizesOf st.all_node_states = s :: rest) :
    initialState.cluster_config = ⟨0, 0⟩ ∧
    (∀ (isMaster : Bool) (u : Update ClusterConfig) (st₁ : ControllerState),
      u.exists_ = false →
      (OnClusterConfigUpdated isMaster u st₁).state.cluster_config = st₁.cluster_config) ∧
    (∀ isMaster, (CalculateServingSTH isMaster st).1.calculated_serving_sth =
      some (sth_by_size st.all_node_states s)) := by
  refine ⟨rfl, ?_, ?_⟩
  · intro m u st₁ hu
    simp [OnClusterConfigUpdated, hu]
  · have hcand : servingCandidate st.cluster_config st.all_node_states
        st.calculated_serving_sth = some (sth_by_size st.all_node_states s) := by
      rw [servingCandidate.eq_def, hcalc, hcfg, hsz]
      simp only [findServing, Nat.not_lt_zero, if_false]
      rw [if_pos ⟨div_nonneg (Nat.cast_nonneg _) (Nat.cast_nonneg _), Nat.zero_le _⟩]
    intro m
    simp [CalculateServingSTH, hcand]

/-- Evaluation of the serving-STH calculation on the S1 state. -/
lemma stS1_candidate_eval :
    servingCandidate stS1.cluster_config stS1.all_node_states stS1.calculated_serving_sth
      = some ⟨10, 110⟩ := by
  norm_num [servingCandidate, findServing, sizesOf, insertSizeDesc, num_nodes_at_size,
    sth_by_size, bestSthAux, stS1, peersS1, cfgS1, initialState]

/-- Evaluation of the serving-STH calculation on the repeat state: the same
candidate `{10, 110}` qualifies again. -/
lemma stRepeat_candidate_eval :
    servingCandidate stRepeat.cluster_config stRepeat.all_node_states
      stRepeat.calculated_serving_sth = some ⟨10, 110⟩ := by
  norm_num [servingCandidate, findServing, sizesOf, insertSizeDesc, num_nodes_at_size,
    sth_by_size, bestSthAux, stRepeat, stS1, peersS1, cfgS1, initialState]

/-- Claim C1, evaluated at the failing input: across the watch-event sequence
`regressionEvents1 ++ regressionEvents2` the calculated serving STH first
becomes `{5, 100}` and then the default-constructed `{0, 0}` — its
`tree_size` regresses from 5 to 0 (the `sth_by_size[10]` entry keeps its
default-constructed value because every peer at size 10 has timestamp 0),
contradicting the claimed monotonicity. -/
theorem calculated_tree_size_regression_run :
    ((runEvents regressionEvents1 initialState).map
      (fun st => st.calculated_serving_sth)) = some (some ⟨5, 100⟩) ∧
    ((runEvents (regressionEvents1 ++ regressionEvents2) initialState).map
      (fun st => st.calculated_serving_sth)) = some (some ⟨0, 0⟩) := by
  constructor <;>
    norm_num [runEvents, applyEvent, OnClusterStateUpdated, applyNodeStateUpdates,
      applyNodeStateUpdate, mapInsert, CalculateServingSTH, servingCandidate, findServing,
      sizesOf, insertSizeDesc, num_nodes_at_size, sth_by_size, bestSthAux,
      regressionEvents1, regressionEvents2, initialState]

/-- Witness for C2 at the S1 state: the calculation assigns `{10, 110}`, and
2 peers are at size ≥ 10, which is ≥ `minimum_serving_nodes = 2` and a
fraction ≥ `minimum_serving_fraction = 1/2` of the 4 peers. -/
theorem quorum_soundness_witness :
    servingCandidate stS1.cluster_config stS1.all_node_states stS1.calculated_serving_sth
      = some ⟨10, 110⟩ ∧
    stS1.cluster_config.minimum_serving_nodes ≤
      countAtLeast stS1.all_node_states (10 : Nat) ∧
    stS1.cluster_config.minimum_serving_fraction ≤
      (countAtLeast stS1.all_node_states (10 : Nat) : ℚ) /
        (stS1.all_node_states.length : ℚ) :=
  ⟨stS1_candidate_eval,
    (quorum_soundness stS1 ⟨10, 110⟩ stS1_candidate_eval).2.1,
    (quorum_soundness stS1 ⟨10, 110⟩ stS1_candidate_eval).2.2⟩

/-- Counterexample to claim C3 as stated: starting from the published S1
result (peer states, config and calculated STH `{10, 110}` unchanged,
`update_required_` already cleared), a second run of `CalculateServingSTH`
while master calls `notify_all` again and sets `update_required_` again. -/
theorem second_identical_calculation_resignals_cex :
    (CalculateServingSTH true stRepeat).2 = true ∧
    (CalculateServingSTH true stRepeat).1.update_required = true := by
  rw [CalculateServingSTH, stRepeat_candidate_eval]
  exact ⟨rfl, rfl⟩

/-- Claim C3 (amended): whenever the calculation finds a qualifying STH while
the node is master — in particular on a second run with peer states, config
and the previously calculated STH unchanged from a run that already produced
and published that STH — it assigns the (unchanged) calculated STH, sets
`update_required_` again and wakes the publisher again. -/
theorem recalculation_resignals (st : ControllerState) (sth : SignedTreeHead)
    (h : servingCandidate st.cluster_config st.all_node_states st.calculated_serving_sth
      = some sth) :
    CalculateServingSTH true st =
      ({ st with calculated_serving_sth := some sth, update_required := true }, true) := by
  simp [CalculateServingSTH, h]

/-- Witness for the amended C3 at the concrete repeat state. -/
theorem recalculation_resignals_witness :
    servingCandidate stRepeat.cluster_config stRepeat.all_node_states
      stRepeat.calculated_serving_sth = some ⟨10, 110⟩ ∧
    CalculateServingSTH true stRepeat =
      ({ stRepeat with calculated_serving_sth := some ⟨10, 110⟩, update_required := true },
        true) :=
  ⟨stRepeat_candidate_eval, recalculation_resignals stRepeat ⟨10, 110⟩ stRepeat_candidate_eval⟩

/-- Witness for C4: with a serving STH of size 10 and 12 contiguous local
entries the node joins the election. -/
theorem election_participation_rule_witness :
    DetermineElectionParticipation stElectionW = ElectionAction.startElection :=
  (election_participation_rule stElectionW).2.2.mpr ⟨⟨10, 110⟩, rfl, by decide⟩

/-- Witness for C5: a signalled master publishes the calculated STH, and the
conclusion `isMaster = true` holds there. -/
theorem publisher_master_gated_witness :
    ClusterServingSTHUpdaterBody true stPubW =
      some ({ stPubW with update_required := false }, UpdaterOutcome.published ⟨10, 110⟩) ∧
    true = true :=
  ⟨rfl, publisher_master_gated.1 true stPubW { stPubW with update_required := false }
      ⟨10, 110⟩ rfl⟩

/-- Claim C6 (scenario S1): with config `{2, 1/2}` and peers A:10/100,
B:10/110, C:7/90, D:none and no previous calculated STH, the calculation
sets the calculated serving STH to `{tree_size = 10, timestamp = 110}`. -/
theorem scenario_s1_quorum_just_met :
    (CalculateServingSTH false stS1).1.calculated_serving_sth = some ⟨10, 110⟩ := by
  rw [CalculateServingSTH, stS1_candidate_eval]

/-- Claim C7 (scenario S3): starting from calculated `{10, 110}` with peer B
removed, no size ≥ 10 reaches quorum, so the whole state — including the
calculated STH and `update_required_` — is left unchanged and the publisher
is not woken, even as master. -/
theorem scenario_s3_monotonicity_guard :
    CalculateServingSTH true stS3 = (stS3, false) := by
  norm_num [CalculateServingSTH, servingCandidate, findServing, sizesOf, insertSizeDesc,
    num_nodes_at_size, sth_by_size, bestSthAux, stS3, peersS3, cfgS1, initialState]

/-- Claim C9: when every peer at the qualifying size 10 has timestamp 0, the
calculation assigns the default-constructed `SignedTreeHead` `{0, 0}` —
which is no peer's STH — because `sth_by_size[10]` only replaces its
default-constructed entry on a strictly larger timestamp. -/
theorem default_sth_when_all_timestamps_zero :
    servingCandidate cfgS1 peersC9 none = some ⟨0, 0⟩ ∧
    (∀ p ∈ peersC9, ∀ s, p.2.newest_sth = some s → s.tree_size = 10 ∧ s.timestamp = 0) ∧
    (∀ p ∈ peersC9, p.2.newest_sth ≠ some ⟨0, 0⟩) := by
  refine ⟨?_, by decide, by decide⟩
  norm_num [servingCandidate, findServing, sizesOf, insertSizeDesc, num_nodes_at_size,
    sth_by_size, bestSthAux, peersC9, cfgS1]

/-- Witness for C10: a single peer with an STH of size 3 under the initial
default config makes the calculation assign `sth_by_size` at size 3. -/
theorem default_config_bootstrap_witness :
    sizesOf stBootstrap.all_node_states = [3] ∧
    (CalculateServingSTH false stBootstrap).1.calculated_serving_sth =
      some (sth_by_size stBootstrap.all_node_states 3) :=
  ⟨rfl, (default_config_bootstrap stBootstrap 3 [] rfl rfl rfl).2.2 false⟩

/-- Witness for C8: an STH with timestamp 50 against a previous newest STH
with timestamp 100 makes `NewTreeHead` abort. -/
theorem new_tree_head_timestamp_contract_witness :
    NewTreeHead ⟨5, 50⟩ stNewTreeW = none :=
  (new_tree_head_timestamp_contract stNewTreeW ⟨5, 50⟩).1.mpr ⟨⟨5, 100⟩, rfl, by decide⟩

end CertTrans
